import Mathlib

/-
Shallow embedding of the sloth_go repository (Go package slothgo), a Sloth
verifiable delay function over a prime field.  Byte strings are modelled as
lists of natural numbers, big.Int field elements as Nat (with Int used where
the Go code performs signed arithmetic before reducing with big.Int.Mod,
which returns a non-negative representative, matching Int.emod for a
positive modulus).  The pluggable hash capability (sha256 by default) is an
external collaborator and is modelled as an arbitrary function from byte
strings to byte strings carried in the instance, exactly as the HashFunc
field of the Go struct.
-/

namespace Slothgo

/-- Model of big.Int.SetBytes: interpret a byte string as a big-endian
unsigned integer. -/
def bytesToNat (bs : List Nat) : Nat :=
  bs.foldl (fun acc b => acc * 256 + b) 0

/-- Helper for natToBytes, structurally recursive on a fuel argument so that
the kernel can evaluate it.  The fuel n always suffices because the number
of base-256 digits of n is at most n. -/
def natToBytesAux : Nat → Nat → List Nat
  | 0, _ => []
  | fuel + 1, n => if n = 0 then [] else natToBytesAux fuel (n / 256) ++ [n % 256]

/-- Model of big.Int.Bytes: the minimal big-endian byte representation of a
non-negative integer (empty for zero). -/
def natToBytes (n : Nat) : List Nat :=
  natToBytesAux n n

/-- The Sloth struct: modulus P, iteration count (int64 in Go, hence Int),
the hash capability, and the precomputed square-root exponent. -/
structure Sloth where
  P : Nat
  Iterations : Int
  HashFunc : List Nat → List Nat
  sqrtExp : Nat

/-- Model of the external primality capability p.ProbablyPrime(20) by exact
trial division; the Go library call is deterministic and exact for small
inputs and has negligible error otherwise, and the spec treats it as a
primality test. -/
def probablyPrime (n : Nat) : Bool :=
  decide (2 ≤ n) && (List.range (n - 2)).all fun m => n % (m + 2) != 0

/-- The constructor New: validates iterations, primality, and the residue
condition, then precomputes sqrtExp = (p+1)/4.  The Go code hard-wires
sha256.New as the hash capability; the capability itself is a parameter of
the model. -/
def New (hashF : List Nat → List Nat) (p : Nat) (iterations : Int) :
    Except String Sloth :=
  if iterations ≤ 0 then
    .error "iterations must be positive"
  else if !probablyPrime p then
    .error "p is not a prime number"
  else if p % 4 ≠ 3 then
    .error "p must be congruent to 3 (mod 4)"
  else
    .ok { P := p, Iterations := iterations, HashFunc := hashF,
          sqrtExp := (p + 1) / 4 }

/-- Model of the external big.Jacobi(x, p) for an odd prime modulus p, via
the Euler criterion: 0 when p divides x, 1 when x is a nonzero quadratic
residue, -1 otherwise.  For prime p this agrees with the Jacobi symbol. -/
def jacobi (x p : Nat) : Int :=
  if x % p = 0 then 0
  else if x ^ ((p - 1) / 2) % p = 1 then 1
  else -1

/-- The neighbor-swap step sigma: x - 1 for even x, x + 1 for odd x, then
reduced with big.Int.Mod (non-negative remainder). -/
def sigma (s : Sloth) (x : Nat) : Nat :=
  if x % 2 = 0 then ((((x : Int) - 1) % (s.P : Int))).toNat
  else ((((x : Int) + 1) % (s.P : Int))).toNat

/-- sigmaInverse just calls sigma. -/
def sigmaInverse (s : Sloth) (x : Nat) : Nat :=
  sigma s x

/-- The square-root step rho: root of x when Jacobi(x, p) = 1, otherwise
root of (-x) mod p, always returning the even member of the root pair. -/
def rho (s : Sloth) (x : Nat) : Nat :=
  let valToRoot := if jacobi x s.P = 1 then x else ((-(x : Int)) % (s.P : Int)).toNat
  let root := valToRoot ^ s.sqrtExp % s.P
  if root % 2 = 0 then root
  else s.P - root

/-- The inverse square-root step rhoInverse as the Go code actually
computes it.  The source reads, for odd y,
new(big.Int).Neg(ySquared).Mod(ySquared, s.P): in Go, z.Mod(x, y) stores
x mod y into the receiver z, discarding the negation previously stored in
z, so the returned value is ySquared mod p in both branches. -/
def rhoInverse (s : Sloth) (y : Nat) : Nat :=
  let ySquared := y ^ 2 % s.P
  if y % 2 = 0 then ySquared
  else ySquared % s.P

/-- The forward iteration step. -/
def Tau (s : Sloth) (x : Nat) : Nat :=
  rho s (sigma s x)

/-- The inverse iteration step. -/
def TauInverse (s : Sloth) (y : Nat) : Nat :=
  sigmaInverse s (rhoInverse s y)

/-- Compute: seed w0 = hash(input) mod p, apply Tau Iterations times, and
return (hash(bytes(witness)), witness, nil error). -/
def Compute (s : Sloth) (input : List Nat) : List Nat × Nat × Option String :=
  let uBytes := s.HashFunc input
  let w0 := bytesToNat uBytes % s.P
  let w := (Tau s)^[s.Iterations.toNat] w0
  let digest := s.HashFunc (natToBytes w)
  (digest, w, none)

/-- Verify: nil checks on input, hash and witness in that order, then the
range check, then the digest recomputation check, then Iterations
applications of TauInverse compared against the recomputed seed.  None is
the model of a nil Go pointer or slice, and the witness is an Int because a
caller may pass any big.Int. -/
def Verify (s : Sloth) (input : Option (List Nat)) (h : Option (List Nat))
    (witness : Option Int) : Bool × Option String :=
  match input with
  | none => (false, some "input cannot be nil")
  | some inp =>
    match h with
    | none => (false, some "hash cannot be nil")
    | some hBytes =>
      match witness with
      | none => (false, some "witness cannot be nil")
      | some w =>
        if (s.P : Int) ≤ w ∨ w < 0 then
          (false, some "witness must be in the range [0, p-1]")
        else
          let expectedHash := s.HashFunc (natToBytes w.toNat)
          if hBytes ≠ expectedHash then
            (false, some "hash of witness does not match provided hash")
          else
            let wCheck := (TauInverse s)^[s.Iterations.toNat] w.toNat
            let wStartExpected := bytesToNat (s.HashFunc inp) % s.P
            if wCheck = wStartExpected then (true, none)
            else (false,
              some "verification failed: reversed witness does not match initial value")

/-- GenerateSlothPrime: the external capability rand.Prime is modelled as a
stream of candidate primes supplied as a list; the loop accepts the first
candidate congruent to 3 mod 4 and keeps resampling otherwise (none models
the loop never finding a candidate in the supplied stream). -/
def GenerateSlothPrime (candidates : List Nat) : Option Nat :=
  candidates.find? fun q => q % 4 == 3

/-- A valid instance in the sense of the spec: the values New guarantees. -/
def ValidInstance (s : Sloth) : Prop :=
  Nat.Prime s.P ∧ s.P % 4 = 3 ∧ 0 < s.Iterations ∧ s.sqrtExp = (s.P + 1) / 4

/-- A concrete hash capability used for concrete evaluations: it sends
every byte string to the single byte 4. -/
def hash0 : List Nat → List Nat :=
  fun _ => [4]

/-- The concrete instance New hash0 7 1 constructs: p = 7 is a prime
congruent to 3 mod 4, and (7+1)/4 = 2. -/
def s7 : Sloth :=
  { P := 7, Iterations := 1, HashFunc := hash0, sqrtExp := 2 }

/-- The instance s7 satisfies every construction-time invariant. -/
lemma s7_valid : ValidInstance s7 := by
  unfold ValidInstance
  decide

/-- The model of ProbablyPrime agrees with primality. -/
lemma probablyPrime_iff (n : Nat) : probablyPrime n = true ↔ Nat.Prime n := by
  unfold probablyPrime
  rw [Bool.and_eq_true, List.all_eq_true]
  simp only [List.mem_range, decide_eq_true_eq, bne_iff_ne, ne_eq]
  constructor
  · rintro ⟨h2, hall⟩
    rw [Nat.prime_def_lt']
    refine ⟨h2, fun m hm2 hmlt hdvd => ?_⟩
    have hidx := hall (m - 2) (by omega)
    rw [show m - 2 + 2 = m by omega] at hidx
    exact hidx (Nat.mod_eq_zero_of_dvd hdvd)
  · intro hp
    obtain ⟨h2, hall⟩ := Nat.prime_def_lt'.mp hp
    refine ⟨h2, fun m hm hmod => ?_⟩
    exact hall (m + 2) (by omega) (by omega) (Nat.dvd_of_mod_eq_zero hmod)

/-- For even x with 1 le x lt p, sigma subtracts one. -/
lemma sigma_even_eq (s : Sloth) (x : Nat) (h2 : x % 2 = 0) (h1 : 1 ≤ x)
    (hx : x < s.P) : sigma s x = x - 1 := by
  unfold sigma
  rw [if_pos h2, Int.emod_eq_of_lt (by omega) (by omega)]
  omega

/-- For odd x with x + 1 lt p, sigma adds one. -/
lemma sigma_odd_eq (s : Sloth) (x : Nat) (h2 : x % 2 = 1)
    (hx : x + 1 < s.P) : sigma s x = x + 1 := by
  unfold sigma
  rw [if_neg (by omega), Int.emod_eq_of_lt (by omega) (by omega)]
  omega

/-- The parity selection between a root and its negation yields an even
value whenever the modulus is odd. -/
lemma even_select (p r : Nat) (hp : p % 2 = 1) (hr : r < p) :
    (if r % 2 = 0 then r else p - r) % 2 = 0 := by
  split_ifs with h <;> omega

/-- Every output of rho is even when the modulus is a Sloth prime. -/
lemma rho_even (s : Sloth) (hp : s.P % 4 = 3) (x : Nat) : rho s x % 2 = 0 := by
  simp only [rho]
  exact even_select s.P _ (by omega) (Nat.mod_lt _ (by omega))

/-- C1: the claim fails on the code.  For the instance that New constructs
at p = 7 with one iteration, the field element 4 satisfies
TauInverse (Tau 4) = 3, not 4: sigma 4 = 3 is a non-residue mod 7, rho
takes the even root 2 of -3 = 4 but discards the fact that the sign was
flipped, and the inverse step squares 2 back to 4 and ends at sigma 4 = 3. -/
theorem tauInverse_tau_not_identity :
    New hash0 7 1 = Except.ok s7 ∧ Tau s7 4 = 2 ∧
      TauInverse s7 (Tau s7 4) = 3 :=
  ⟨rfl, by decide, by decide⟩

/-- C2: the claim fails on the code.  For the instance with p = 7, one
iteration and the hash capability hash0, Compute on the empty input returns
digest [4] and witness 2 with a nil error, yet Verify on exactly that
output returns false with the verification-failed error: the seed is
hash([]) mod 7 = 4, the witness is Tau 4 = 2, and the inverse loop produces
TauInverse 2 = 3, which differs from the seed 4. -/
theorem compute_verify_roundtrip_fails :
    Compute s7 [] = ([4], 2, none) ∧
      Verify s7 (some []) (some [4]) (some 2) =
        (false,
          some "verification failed: reversed witness does not match initial value") :=
  ⟨rfl, rfl⟩

/-- C3: the claim fails on the code.  At the valid instance with p = 7 the
odd input y = 1 yields rhoInverse 1 = 1, the value of y squared mod p,
whereas the documented piecewise function demands the negation
(-(1 squared)) mod 7 = 6: the Go receiver in the odd branch discards the
negation, so both branches return y squared mod p. -/
theorem rhoInverse_odd_branch_mismatch :
    rhoInverse s7 1 = 1 ∧ ((-((1 : Int) ^ 2)) % (7 : Int)).toNat = 6 :=
  ⟨by decide, by decide⟩

/-- C4 counterexample: sigma is not an involution at 0.  At the valid
instance with p = 7, sigma 0 = 6 and sigma 6 = 5, so sigma (sigma 0) = 5,
which differs from 0. -/
theorem sigma_sigma_zero_ne :
    ValidInstance s7 ∧ sigma s7 (sigma s7 0) = 5 :=
  ⟨s7_valid, by decide⟩

/-- C4 amended: sigmaInverse coincides with sigma, and sigma is an
involution on the nonzero field elements x in [1, p-1]; at x = 0 the
composite instead returns p - 2. -/
theorem sigma_involution_amended (s : Sloth) (x : Nat)
    (hp : s.P % 4 = 3) (hx1 : 1 ≤ x) (hxp : x < s.P) :
    sigma s (sigma s x) = x ∧ ∀ y, sigmaInverse s y = sigma s y := by
  refine ⟨?_, fun y => rfl⟩
  have hodd : s.P % 2 = 1 := by omega
  by_cases h2 : x % 2 = 0
  · have hs1 : sigma s x = x - 1 := sigma_even_eq s x h2 hx1 hxp
    have hs2 : sigma s (x - 1) = (x - 1) + 1 :=
      sigma_odd_eq s (x - 1) (by omega) (by omega)
    rw [hs1, hs2]
    omega
  · have hs1 : sigma s x = x + 1 := sigma_odd_eq s x (by omega) (by omega)
    have hs2 : sigma s (x + 1) = (x + 1) - 1 :=
      sigma_even_eq s (x + 1) (by omega) (by omega) (by omega)
    rw [hs1, hs2]
    omega

/-- C4 amended, witnessed at the valid instance with p = 7, x = 3. -/
theorem sigma_involution_amended_witness :
    sigma s7 (sigma s7 3) = 3 ∧ sigmaInverse s7 4 = sigma s7 4 :=
  ⟨(sigma_involution_amended s7 3 (by decide) (by decide) (by decide)).1,
   (sigma_involution_amended s7 3 (by decide) (by decide) (by decide)).2 4⟩

/-- C5: New succeeds exactly when the iteration count is positive, p passes
the primality test, and p is congruent to 3 mod 4 (otherwise it returns an
error and no instance), and every instance it returns carries
sqrtExp = (p + 1) / 4. -/
theorem New_ok_iff (hashF : List Nat → List Nat) (p : Nat) (iters : Int) :
    ((∃ s, New hashF p iters = Except.ok s) ↔
      0 < iters ∧ Nat.Prime p ∧ p % 4 = 3)
    ∧ ∀ s, New hashF p iters = Except.ok s → s.sqrtExp = (p + 1) / 4 := by
  unfold New
  split_ifs with h1 h2 h3
  · refine ⟨⟨fun ⟨s, hs⟩ => by simp at hs, fun ⟨hi, _⟩ => absurd hi (by omega)⟩,
      fun s hs => by simp at hs⟩
  · have hnp : ¬ Nat.Prime p := by
      rw [← probablyPrime_iff]
      simp only [Bool.not_eq_true'] at h2
      simp [h2]
    refine ⟨⟨fun ⟨s, hs⟩ => by simp at hs, fun ⟨_, hp, _⟩ => absurd hp hnp⟩,
      fun s hs => by simp at hs⟩
  · refine ⟨⟨fun ⟨s, hs⟩ => by simp at hs, fun ⟨_, _, hm⟩ => absurd hm h3⟩,
      fun s hs => by simp at hs⟩
  · have hp : Nat.Prime p := by
      rw [← probablyPrime_iff]
      simpa using h2
    refine ⟨⟨fun _ => ⟨by omega, hp, by omega⟩, fun _ => ⟨_, rfl⟩⟩,
      fun s hs => ?_⟩
    cases hs
    rfl

/-- C5 witnessed: p = 7 with one iteration is accepted, and the returned
instance s7 carries sqrtExp = (7 + 1) / 4. -/
theorem New_ok_iff_witness :
    (∃ s, New hash0 7 1 = Except.ok s) ∧ s7.sqrtExp = (7 + 1) / 4 :=
  ⟨(New_ok_iff hash0 7 1).1.mpr ⟨by decide, by decide, by decide⟩,
   (New_ok_iff hash0 7 1).2 s7 rfl⟩

/-- C6: Verify rejects, with the distinct errors and in this order, a nil
input, a nil hash, a nil witness, a witness outside [0, p-1], and a hash
differing from the recomputed hash of the witness bytes; each rejection is
decided before the inverse-iteration loop contributes to the result. -/
theorem Verify_precheck (s : Sloth) (inp hb : List Nat) (w : Int) :
    (∀ h2 w2, Verify s none h2 w2 = (false, some "input cannot be nil"))
    ∧ (∀ w2, Verify s (some inp) none w2 = (false, some "hash cannot be nil"))
    ∧ Verify s (some inp) (some hb) none = (false, some "witness cannot be nil")
    ∧ ((s.P : Int) ≤ w ∨ w < 0 →
        Verify s (some inp) (some hb) (some w) =
          (false, some "witness must be in the range [0, p-1]"))
    ∧ (¬((s.P : Int) ≤ w ∨ w < 0) →
        hb ≠ s.HashFunc (natToBytes w.toNat) →
        Verify s (some inp) (some hb) (some w) =
          (false, some "hash of witness does not match provided hash")) := by
  refine ⟨fun _ _ => rfl, fun _ => rfl, rfl, fun hc => ?_, fun hc hne => ?_⟩
  · simp only [Verify]
    rw [if_pos hc]
  · simp only [Verify]
    rw [if_neg hc, if_pos hne]

/-- C6 witnessed: at the instance with p = 7, the out-of-range witness 9
draws the range error, and an in-range witness whose digest is wrong draws
the hash-mismatch error. -/
theorem Verify_precheck_witness :
    Verify s7 (some []) (some []) (some 9) =
      (false, some "witness must be in the range [0, p-1]")
    ∧ Verify s7 (some []) (some [1]) (some 2) =
      (false, some "hash of witness does not match provided hash") :=
  ⟨(Verify_precheck s7 [] [] 9).2.2.2.1 (by decide),
   (Verify_precheck s7 [] [1] 2).2.2.2.2 (by decide) (by decide)⟩

/-- C7: zero is a fixed point of both square-root steps on every valid
instance: the Jacobi symbol of 0 is 0, so rho roots (-0) mod p = 0 and the
principal root of 0 is 0, and rhoInverse squares 0 to 0. -/
theorem rho_rhoInverse_zero (s : Sloth) (hs : ValidInstance s) :
    rho s 0 = 0 ∧ rhoInverse s 0 = 0 := by
  obtain ⟨hprime, hmod, hiter, hexp⟩ := hs
  have hexp0 : s.sqrtExp ≠ 0 := by
    rw [hexp]
    omega
  constructor
  · simp only [rho, jacobi]
    norm_num [Nat.zero_pow (Nat.pos_of_ne_zero hexp0)]
  · simp only [rhoInverse]
    norm_num

/-- C7 witnessed at the valid instance with p = 7. -/
theorem rho_rhoInverse_zero_witness : rho s7 0 = 0 ∧ rhoInverse s7 0 = 0 :=
  rho_rhoInverse_zero s7 s7_valid

/-- C8: every output of Tau is even, and on a valid instance (at least one
iteration) the witness Compute returns is even, because rho always selects
the even member of the root pair. -/
theorem Tau_Compute_even (s : Sloth) (input : List Nat) (x : Nat)
    (hs : ValidInstance s) :
    Tau s x % 2 = 0 ∧ (Compute s input).2.1 % 2 = 0 := by
  obtain ⟨hprime, hmod, hiter, hexp⟩ := hs
  refine ⟨rho_even s hmod _, ?_⟩
  show ((Tau s)^[s.Iterations.toNat] (bytesToNat (s.HashFunc input) % s.P)) % 2 = 0
  obtain ⟨m, hm⟩ : ∃ m, s.Iterations.toNat = m + 1 :=
    ⟨s.Iterations.toNat - 1, by omega⟩
  rw [hm, Function.iterate_succ_apply']
  exact rho_even s hmod _

/-- C8 witnessed at the valid instance with p = 7 and the empty input. -/
theorem Tau_Compute_even_witness :
    Tau s7 5 % 2 = 0 ∧ (Compute s7 []).2.1 % 2 = 0 :=
  Tau_Compute_even s7 [] 5 s7_valid

/-- C9: Compute is deterministic: two calls with identical input bytes on
the same instance return identical results, and the error component is
always nil. -/
theorem Compute_deterministic (s : Sloth) (i1 i2 : List Nat) (h : i1 = i2) :
    Compute s i1 = Compute s i2 ∧ (Compute s i1).2.2 = none := by
  subst h
  exact ⟨rfl, rfl⟩

/-- C9 witnessed at the instance with p = 7 and the empty input. -/
theorem Compute_deterministic_witness :
    Compute s7 [] = Compute s7 [] ∧ (Compute s7 []).2.2 = none :=
  Compute_deterministic s7 [] [] rfl

/-- C10: if the external random-prime capability supplies only primes of
the requested bit length, then any value GenerateSlothPrime returns is a
prime of that bit length congruent to 3 mod 4. -/
theorem GenerateSlothPrime_spec (candidates : List Nat) (bits p : Nat)
    (hall : ∀ q ∈ candidates, Nat.Prime q ∧ 2 ^ (bits - 1) ≤ q ∧ q < 2 ^ bits)
    (hret : GenerateSlothPrime candidates = some p) :
    Nat.Prime p ∧ 2 ^ (bits - 1) ≤ p ∧ p < 2 ^ bits ∧ p % 4 = 3 := by
  have hmem : p ∈ candidates := List.mem_of_find?_eq_some hret
  have hprop := List.find?_some hret
  obtain ⟨h1, h2, h3⟩ := hall p hmem
  refine ⟨h1, h2, h3, ?_⟩
  simpa using hprop

/-- C10 witnessed on the candidate stream [5, 7] of 3-bit primes: the
candidate 5 is rejected (5 mod 4 = 1) and 7 is accepted. -/
theorem GenerateSlothPrime_spec_witness :
    Nat.Prime 7 ∧ 2 ^ (3 - 1) ≤ 7 ∧ 7 < 2 ^ 3 ∧ 7 % 4 = 3 :=
  GenerateSlothPrime_spec [5, 7] 3 7 (by decide) rfl

end Slothgo
